import Mathlib

/-!
Verification of the natural-neighbor interpolation core of the
`naturalneighbor` crate (`src/src/lib.rs`, with `src/src/primitives.rs` and
`src/src/util.rs`).

Shallow embedding conventions:
* `f64` values are modelled as exact rationals (`ℚ`); decimal literals of the
  source become the corresponding exact rationals.
* `usize` is modelled as `Nat`; `usize` subtraction is truncated subtraction,
  which agrees with Rust for `degree_limitation ≥ 1` (the only regime the
  theorems use; the default is 30).
* Rust slice indexing `xs[i]` is modelled as `List.getD xs i d`; in every
  state reachable from a well-formed triangulation the index is in range, so
  the default is never consulted (Rust would panic out of range).
* The `rstar` R-tree is an external collaborator; it is modelled as the list
  of its entries, and `locate_all_at_point` as the filter of the entries whose
  axis-aligned bounding box contains the query point, which is its documented
  semantics for `primitives::Triangle` (whose `distance_2` is the distance to
  the AABB).
* The callback parameter `apply_weight` of `perform_interpoation` is modelled
  by returning the list of callback invocations `(site, weight, tmp_weight_sum)`
  in order; each public query folds its own closure over that list exactly as
  the Rust closures do.
* A Rust panic (`Option::unwrap` on `None` in the envelope-closing branch) is
  modelled by the distinguished outcome `InterpolatorError.panicked`; it is not
  a variant of the Rust error enum.
-/

namespace NNI

/-- A 2D point (`delaunator::Point`), coordinates modelled as exact rationals. -/
structure Point where
  x : ℚ
  y : ℚ
deriving DecidableEq

instance : Inhabited Point := ⟨⟨0, 0⟩⟩

/-- The error enum `InterpolatorError` of `src/src/lib.rs`, plus `panicked`,
which models a Rust panic (see the header comment). -/
inductive InterpolatorError where
  | tooManyNeighbors (limit : Nat)
  | differentNumberOfPointsAndValues
  | panicked
deriving DecidableEq

/-- Modelled from the spec: a half-edge is indexed `3*triangle + corner` and
`next_halfedge` cycles the three edges of triangle `e / 3` (the source imports
`next_harfedge` from `util`; that helper is the standard delaunator one). -/
def next_harfedge (e : Nat) : Nat :=
  if e % 3 = 2 then e - 2 else e + 1

/-- Modelled from the spec (glossary: circumcenter) and from the center part of
`circumcircle` in `src/src/util.rs`, which uses exactly this formula (the
source imports `circumcenter` from `util`). -/
def circumcenter (p1 p2 p3 : Point) : Point :=
  let d := 2 * (p1.x * (p2.y - p3.y) + p2.x * (p3.y - p1.y) + p3.x * (p1.y - p2.y))
  let ux := ((p1.x * p1.x + p1.y * p1.y) * (p2.y - p3.y) + (p2.x * p2.x + p2.y * p2.y) * (p3.y - p1.y) + (p3.x * p3.x + p3.y * p3.y) * (p1.y - p2.y)) / d
  let uy := ((p1.x * p1.x + p1.y * p1.y) * (p3.x - p2.x) + (p2.x * p2.x + p2.y * p2.y) * (p1.x - p3.x) + (p3.x * p3.x + p3.y * p3.y) * (p2.x - p1.x)) / d
  ⟨ux, uy⟩

/-- Modelled from the spec (§3 Triangle Region: circumcenter and squared
radius) and from `circumcircle` in `src/src/util.rs` with the radius kept
squared (the source imports `circumcircle_with_radius_2` from `util`). -/
def circumcircle_with_radius_2 (p1 p2 p3 : Point) : Point × ℚ :=
  let c := circumcenter p1 p2 p3
  (c, (p1.x - c.x) * (p1.x - c.x) + (p1.y - c.y) * (p1.y - c.y))

/-- The R-tree entry of `src/src/primitives.rs`: a triangle index together with
the axis-aligned bounding box of its three corners. -/
structure Triangle where
  itriangle : Nat
  min_x : ℚ
  min_y : ℚ
  max_x : ℚ
  max_y : ℚ
deriving DecidableEq

/-- `Triangle::from_triangle` of `src/src/primitives.rs`. -/
def Triangle.from_triangle (points : List Point) (triangles : List Nat) (t : Nat) : Triangle :=
  let i0 := triangles.getD (t * 3) 0
  let i1 := triangles.getD (t * 3 + 1) 0
  let i2 := triangles.getD (t * 3 + 2) 0
  let p0 := points.getD i0 default
  let p1 := points.getD i1 default
  let p2 := points.getD i2 default
  { itriangle := t
    min_x := min (min p0.x p1.x) p2.x
    min_y := min (min p0.y p1.y) p2.y
    max_x := max (max p0.x p1.x) p2.x
    max_y := max (max p0.y p1.y) p2.y }

/-- `Triangle::point_in_triangle` of `src/src/primitives.rs`: the exact
barycentric sign test with non-strict inequalities. -/
def Triangle.point_in_triangle (self : Triangle) (points : List Point) (triangles : List Nat)
    (point : Point) : Bool :=
  let i0 := triangles.getD (self.itriangle * 3) 0
  let i1 := triangles.getD (self.itriangle * 3 + 1) 0
  let i2 := triangles.getD (self.itriangle * 3 + 2) 0
  let p1 := points.getD i0 default
  let p2 := points.getD i1 default
  let p3 := points.getD i2 default
  let area2 := -p2.y * p3.x + p1.y * (-p2.x + p3.x) + p1.x * (p2.y - p3.y) + p2.x * p3.y
  let s := 1 / area2 * (p1.y * p3.x - p1.x * p3.y + (p3.y - p1.y) * point.x + (p1.x - p3.x) * point.y)
  let t := 1 / area2 * (p1.x * p2.y - p1.y * p2.x + (p1.y - p2.y) * point.x + (p2.x - p1.x) * point.y)
  decide (0 ≤ s) && decide (0 ≤ t) && decide (0 ≤ 1 - s - t)

/-- Membership of a point in the R-tree entry's AABB: the semantics of
`rstar::RTree::locate_all_at_point` for `primitives::Triangle`, whose
`distance_2` is the squared distance to the AABB (zero exactly on the box). -/
def Triangle.aabb_contains (self : Triangle) (p : Point) : Bool :=
  decide (self.min_x ≤ p.x) && decide (p.x ≤ self.max_x) &&
  decide (self.min_y ≤ p.y) && decide (p.y ≤ self.max_y)

/-- The `Interpolator` struct of `src/src/lib.rs`; the R-tree is modelled as
the list of its entries. -/
structure Interpolator where
  points : List Point
  triangles : List Nat
  harfedges : List Nat
  tree : List Triangle
  degree_limitation : Nat

/-- `EPS_INTERPOLATOR` of `src/src/lib.rs` (`1e-12`). -/
def EPS_INTERPOLATOR : ℚ := 1 / 1000000000000

/-- `DEFAULT_DEGREE_LIMITATION` of `src/src/lib.rs`. -/
def DEFAULT_DEGREE_LIMITATION : Nat := 30

/-- The four fixed perturbation offsets (`check_angles`) of
`fit_in_triangle` in `src/src/lib.rs`. -/
def check_angles : List Point :=
  [⟨EPS_INTERPOLATOR * (1415 / 1000), EPS_INTERPOLATOR * (1339 / 1000)⟩,
   ⟨EPS_INTERPOLATOR * (1335 / 1000), -(EPS_INTERPOLATOR * (1483 / 1000))⟩,
   ⟨-(EPS_INTERPOLATOR * (1421 / 1000)), -(EPS_INTERPOLATOR * (1384 / 1000))⟩,
   ⟨-(EPS_INTERPOLATOR * (1498 / 1000)), EPS_INTERPOLATOR * (1322 / 1000)⟩]

/-- The candidate-triangle computation shared by both branches of
`fit_in_triangle`: R-tree lookup filtered by the exact point-in-triangle
test (`src/src/lib.rs`, lines 252-256). -/
def locate_candidates (ipl : Interpolator) (ptarget : Point) : List Triangle :=
  (ipl.tree.filter (fun t => t.aabb_contains ptarget)).filter
    (fun circle => circle.point_in_triangle ipl.points ipl.triangles ptarget)

/-- `fit_in_triangle` with `check_around = false`: a recursive probe never
recurses further (`src/src/lib.rs`, lines 258-261 and 297-300). -/
def fit_in_triangle_probe (ipl : Interpolator) (ptarget : Point) : Option (Nat × Point) :=
  let triangles := locate_candidates ipl ptarget
  if 2 ≤ triangles.length then none
  else triangles.head?.map (fun t => (t.itriangle * 3, ptarget))

/-- `fit_in_triangle` with `check_around = true` (`src/src/lib.rs`, lines
251-300): on an ambiguous exact locate, try the four perturbation offsets and
return the first unambiguous probe result (note: the probe returns the
perturbed point). -/
def fit_in_triangle (ipl : Interpolator) (ptarget : Point) : Option (Nat × Point) :=
  let triangles := locate_candidates ipl ptarget
  if 2 ≤ triangles.length then
    check_angles.findSome? (fun angle =>
      fit_in_triangle_probe ipl ⟨ptarget.x + angle.x, ptarget.y + angle.y⟩)
  else triangles.head?.map (fun t => (t.itriangle * 3, ptarget))

/-- `detect_too_large_degree` of `src/src/lib.rs`: `dct >= degree_limitation - 1`
(`Nat` subtraction; faithful to `usize` for `degree_limitation ≥ 1`). -/
def detect_too_large_degree (ipl : Interpolator) (dct : Nat) : Bool :=
  decide (ipl.degree_limitation - 1 ≤ dct)

/-- The point `points[triangles[e]]`: the site at the origin of half-edge `e`. -/
def Interpolator.site_point (ipl : Interpolator) (e : Nat) : Point :=
  ipl.points.getD (ipl.triangles.getD e 0) default

/-- The fan loop of `calculate_weight_area` (`src/src/lib.rs`, lines 214-236):
walks the triangles between `edges.0` and `edges.1` accumulating the shoelace
sum over their circumcenters. `fuel` is the remaining iteration budget of the
source's `for dcount in 0..degree_limitation`; the two are threaded separately
so that boundedness can be stated. Returns the final `(cs1, pre)`. -/
def fan_loop (ipl : Interpolator) (e1 : Nat) :
    Nat → Nat → Nat → Point → ℚ → Except InterpolatorError (Point × ℚ)
  | 0, _, _, cs1, pre => .ok (cs1, pre)
  | fuel + 1, dcount, ce, cs1, pre =>
    let cit := ce / 3
    let c := circumcenter (ipl.site_point (cit * 3)) (ipl.site_point (cit * 3 + 1))
      (ipl.site_point (cit * 3 + 2))
    let pre' := pre + (cs1.x - c.x) * (cs1.y + c.y)
    let nxt := next_harfedge ce
    if e1 = nxt then .ok (c, pre')
    else
      let ce' := ipl.harfedges.getD nxt 0
      if detect_too_large_degree ipl dcount then
        .error (.tooManyNeighbors ipl.degree_limitation)
      else fan_loop ipl e1 fuel (dcount + 1) ce' c pre'

/-- `calculate_weight_area` of `src/src/lib.rs` (lines 194-249) for the edge
triple `edges.0 -> edges.1 -> edges.2`. -/
def calculate_weight_area (ipl : Interpolator) (ptarget : Point) (e0 e1 e2 : Nat) :
    Except InterpolatorError ℚ :=
  let point_prev := ipl.site_point e0
  let point_base := ipl.site_point e1
  let point_next := ipl.site_point e2
  let mprev : Point := ⟨(point_base.x + point_prev.x) / 2, (point_base.y + point_prev.y) / 2⟩
  let mnext : Point := ⟨(point_base.x + point_next.x) / 2, (point_base.y + point_next.y) / 2⟩
  match fan_loop ipl e1 ipl.degree_limitation 0 e0 mprev 0 with
  | .error e => .error e
  | .ok (cs1, pre0) =>
    let pre := pre0 + (cs1.x - mnext.x) * (cs1.y + mnext.y) + (mnext.x - mprev.x) * (mnext.y + mprev.y)
    let gprev := circumcenter ptarget point_base point_prev
    let gnext := circumcenter ptarget point_base point_next
    let post := (mprev.x - gprev.x) * (mprev.y + gprev.y)
      + (gprev.x - gnext.x) * (gprev.y + gnext.y)
      + (gnext.x - mnext.x) * (gnext.y + mnext.y)
      + (mnext.x - mprev.x) * (mnext.y + mprev.y)
    .ok (pre - post)

/-- The inner advance loop of `perform_interpoation` (`src/src/lib.rs`, lines
348-381): advances `edges.2` across the triangulation while the opposite
triangle's circumcircle strictly contains the query point. -/
def envelope_advance (ipl : Interpolator) (pt : Point) :
    Nat → Nat → Nat → Except InterpolatorError Nat
  | 0, _, edge2 => .ok edge2
  | fuel + 1, dcount, edge2 =>
    let opposite := ipl.harfedges.getD edge2 0
    if ipl.harfedges.length ≤ opposite then .ok edge2
    else
      let oit := opposite / 3
      let cr := circumcircle_with_radius_2 (ipl.site_point (oit * 3))
        (ipl.site_point (oit * 3 + 1)) (ipl.site_point (oit * 3 + 2))
      let dist2 := (cr.1.x - pt.x) * (cr.1.x - pt.x) + (cr.1.y - pt.y) * (cr.1.y - pt.y)
      if dist2 < cr.2 then
        if detect_too_large_degree ipl dcount then
          .error (.tooManyNeighbors ipl.degree_limitation)
        else envelope_advance ipl pt fuel (dcount + 1) (next_harfedge opposite)
      else .ok edge2

/-- The `apply` closure of `perform_interpoation` (`src/src/lib.rs`, lines
339-345): computes the weight of the triple, updates the running sum and
records the callback invocation `(triangles[edges.1], weight, tmp_weight_sum)`. -/
def apply_step (ipl : Interpolator) (pt : Point) (e0 e1 e2 : Nat) (tmp : ℚ)
    (trace : List (Nat × ℚ × ℚ)) : Except InterpolatorError (ℚ × List (Nat × ℚ × ℚ)) :=
  match calculate_weight_area ipl pt e0 e1 e2 with
  | .error e => .error e
  | .ok weight =>
    let tmp' := tmp + weight
    .ok (tmp', trace ++ [(ipl.triangles.getD e1 0, weight, tmp')])

/-- The outer loop of `perform_interpoation` (`src/src/lib.rs`, lines 347-407):
streams the rotating triple around the envelope; `.error .panicked` models the
`efirst2.unwrap()` panic when the envelope closes before any valid triple. -/
def envelope_walk (ipl : Interpolator) (pt : Point) (start : Nat) :
    Nat → Nat → Nat → Nat → Nat → Option (Nat × Nat) → ℚ → List (Nat × ℚ × ℚ) →
    Except InterpolatorError (List (Nat × ℚ × ℚ))
  | 0, _, _, _, _, _, _, trace => .ok trace
  | fuel + 1, dcount, e0, e1, e2, efirst2, tmp, trace =>
    match envelope_advance ipl pt ipl.degree_limitation 0 e2 with
    | .error e => .error e
    | .ok e2' =>
      let efirst2' := if e0 < ipl.harfedges.length then
        (if efirst2.isNone then some (e0, e1) else efirst2) else efirst2
      match (if e0 < ipl.harfedges.length then apply_step ipl pt e0 e1 e2' tmp trace
        else .ok (tmp, trace)) with
      | .error e => .error e
      | .ok (tmp', trace') =>
        let r2 := next_harfedge e2'
        if ipl.triangles.getD start 0 = ipl.triangles.getD r2 0 then
          match efirst2' with
          | none => .error .panicked
          | some (f0, f1) =>
            match apply_step ipl pt e1 e2' f0 tmp' trace' with
            | .error e => .error e
            | .ok (tmp2, trace2) =>
              match apply_step ipl pt e2' f0 f1 tmp2 trace2 with
              | .error e => .error e
              | .ok (_, trace3) => .ok trace3
        else if detect_too_large_degree ipl dcount then
          .error (.tooManyNeighbors ipl.degree_limitation)
        else envelope_walk ipl pt start fuel (dcount + 1) e1 e2' r2 efirst2' tmp' trace'

/-- `perform_interpoation` of `src/src/lib.rs` (lines 307-409), with the
callback invocations returned as a list (see the header comment). Note that
the locate result rebinds `ptarget`: the walk runs at the point returned by
`fit_in_triangle`. -/
def perform_interpoation (ipl : Interpolator) (ptarget : Point) :
    Except InterpolatorError (List (Nat × ℚ × ℚ)) :=
  match fit_in_triangle ipl ptarget with
  | none => .ok []
  | some (start, pt) =>
    envelope_walk ipl pt start ipl.degree_limitation 0
      ipl.harfedges.length ipl.harfedges.length start none 0 []

/-- The blanket `Lerpable` implementation of `src/src/lib.rs` for values
convertible to `f64`. -/
def lerp (a b weight : ℚ) : ℚ :=
  a * (1 - weight) + b * weight

/-- The folding step of the `apply_weight` closure of `Interpolator::interpolate`
(`src/src/lib.rs`, lines 427-435). -/
def interpolate_fold (values : List ℚ) (value : Option ℚ) (iwt : Nat × ℚ × ℚ) : Option ℚ :=
  match value with
  | some v => some (lerp v (values.getD iwt.1 0) (iwt.2.1 / iwt.2.2))
  | none => some (values.getD iwt.1 0)

/-- `Interpolator::interpolate` of `src/src/lib.rs` (lines 413-438), with the
value type instantiated at rationals (modelling `f64`). -/
def interpolate (ipl : Interpolator) (values : List ℚ) (ptarget : Point) :
    Except InterpolatorError (Option ℚ) :=
  if ipl.points.length ≠ values.length then .error .differentNumberOfPointsAndValues
  else match perform_interpoation ipl ptarget with
    | .error e => .error e
    | .ok trace => .ok (trace.foldl (interpolate_fold values) none)

/-- `Interpolator::query_weights` of `src/src/lib.rs` (lines 442-463). -/
def query_weights (ipl : Interpolator) (ptarget : Point) :
    Except InterpolatorError (Option (List (Nat × ℚ))) :=
  match perform_interpoation ipl ptarget with
  | .error e => .error e
  | .ok trace =>
    let weight_sum := trace.foldl (fun s iwt => s + iwt.2.1) 0
    let weights := trace.map (fun iwt => (iwt.1, iwt.2.1))
    if weight_sum = 0 then .ok none
    else .ok (some (weights.map (fun iw => (iw.1, iw.2 / weight_sum))))

/-- The output shape of the external Delaunay builder (`delaunator`): triangle
corner indices and the half-edge adjacency (spec §6). -/
structure Triangulation where
  triangles : List Nat
  halfedges : List Nat

/-- `Interpolator::new` of `src/src/lib.rs` (lines 150-177). The external
builder `delaunator::triangulate` is passed as a parameter; `new` always
returns an `Interpolator` (it has no failure path). -/
def Interpolator.new (triangulate : List Point → Triangulation) (points : List Point) :
    Interpolator :=
  let t := triangulate points
  let circumcircles := (List.range (t.triangles.length / 3)).map
    (fun i => Triangle.from_triangle points t.triangles i)
  { points := points
    triangles := t.triangles
    harfedges := t.halfedges
    tree := circumcircles
    degree_limitation := DEFAULT_DEGREE_LIMITATION }

/-- The sentinel delaunator stores in `halfedges` for a hull edge with no
opposite (`usize::MAX`; the source only tests `opposite >= harfedges.len()`). -/
def delaunator_sentinel : Nat := 18446744073709551615

/-- The four corners of the unit square, the concrete scenario of spec §8. -/
def unit_square_points : List Point :=
  [⟨0, 0⟩, ⟨1, 0⟩, ⟨1, 1⟩, ⟨0, 1⟩]

/-- Modelled from the spec: the external Delaunay builder's output on the four
unit-square corners — two counterclockwise triangles `(0,1,2)` and `(0,2,3)`
sharing the diagonal `0-2` (half-edges 2 and 3 are mutual opposites, the four
hull edges have no opposite). The four cocircular corners admit either
diagonal; the claims under test hold for both. -/
def unit_square_triangulate : List Point → Triangulation := fun _ =>
  { triangles := [0, 1, 2, 0, 2, 3]
    halfedges := [delaunator_sentinel, delaunator_sentinel, 3, 2,
      delaunator_sentinel, delaunator_sentinel] }

/-- The interpolator of the spec §8 concrete scenario, built by
`Interpolator::new` from the unit-square corners. -/
def sq : Interpolator :=
  Interpolator.new unit_square_triangulate unit_square_points

/-- The values `1, 0, 1, 0` of the spec §8 concrete scenario. -/
def sq_values : List ℚ := [1, 0, 1, 0]

/-! ### Error-form lemmas: every `TooManyNeighbors` error produced by the
loops carries the configured `degree_limitation`. -/

theorem fan_loop_error_form (ipl : Interpolator) (e1 : Nat) :
    ∀ fuel dcount ce cs1 pre e,
      fan_loop ipl e1 fuel dcount ce cs1 pre = .error e →
      e = .tooManyNeighbors ipl.degree_limitation := by
  intro fuel
  induction fuel with
  | zero =>
    intro dcount ce cs1 pre e h
    simp [fan_loop] at h
  | succ n ih =>
    intro dcount ce cs1 pre e h
    simp only [fan_loop] at h
    split at h
    · simp at h
    · split at h
      · simp only [Except.error.injEq] at h
        exact h.symm
      · exact ih _ _ _ _ _ h

theorem calculate_weight_area_error_form (ipl : Interpolator) (pt : Point) (e0 e1 e2 : Nat)
    (e : InterpolatorError) (h : calculate_weight_area ipl pt e0 e1 e2 = .error e) :
    e = .tooManyNeighbors ipl.degree_limitation := by
  simp only [calculate_weight_area] at h
  split at h
  · simp only [Except.error.injEq] at h
    subst h
    exact fan_loop_error_form ipl e1 _ _ _ _ _ _ (by assumption)
  · simp at h

theorem apply_step_error_form (ipl : Interpolator) (pt : Point) (e0 e1 e2 : Nat) (tmp : ℚ)
    (trace : List (Nat × ℚ × ℚ)) (e : InterpolatorError)
    (h : apply_step ipl pt e0 e1 e2 tmp trace = .error e) :
    e = .tooManyNeighbors ipl.degree_limitation := by
  unfold apply_step at h
  split at h
  · simp only [Except.error.injEq] at h
    subst h
    exact calculate_weight_area_error_form ipl pt e0 e1 e2 _ (by assumption)
  · simp at h

theorem envelope_advance_error_form (ipl : Interpolator) (pt : Point) :
    ∀ fuel dcount edge2 e,
      envelope_advance ipl pt fuel dcount edge2 = .error e →
      e = .tooManyNeighbors ipl.degree_limitation := by
  intro fuel
  induction fuel with
  | zero =>
    intro dcount edge2 e h
    simp [envelope_advance] at h
  | succ n ih =>
    intro dcount edge2 e h
    simp only [envelope_advance] at h
    split at h
    · simp at h
    · split at h
      · split at h
        · simp only [Except.error.injEq] at h
          exact h.symm
        · exact ih _ _ _ h
      · simp at h

theorem envelope_walk_error_form (ipl : Interpolator) (pt : Point) (start : Nat) :
    ∀ fuel dcount e0 e1 e2 ef tmp trace e,
      envelope_walk ipl pt start fuel dcount e0 e1 e2 ef tmp trace = .error e →
      e = .tooManyNeighbors ipl.degree_limitation ∨ e = .panicked := by
  intro fuel
  induction fuel with
  | zero =>
    intro dcount e0 e1 e2 ef tmp trace e h
    simp [envelope_walk] at h
  | succ n ih =>
    intro dcount e0 e1 e2 ef tmp trace e h
    simp only [envelope_walk] at h
    split at h
    · rename_i herr
      simp only [Except.error.injEq] at h
      subst h
      exact Or.inl (envelope_advance_error_form ipl pt _ _ _ _ herr)
    · split at h
      · rename_i herr
        simp only [Except.error.injEq] at h
        subst h
        split at herr
        · exact Or.inl (apply_step_error_form ipl pt _ _ _ _ _ _ herr)
        · simp at herr
      · split at h
        · split at h
          · simp only [Except.error.injEq] at h
            exact Or.inr h.symm
          · split at h
            · rename_i herr
              simp only [Except.error.injEq] at h
              subst h
              exact Or.inl (apply_step_error_form ipl pt _ _ _ _ _ _ herr)
            · split at h
              · rename_i herr
                simp only [Except.error.injEq] at h
                subst h
                exact Or.inl (apply_step_error_form ipl pt _ _ _ _ _ _ herr)
              · simp at h
        · split at h
          · simp only [Except.error.injEq] at h
            exact Or.inl h.symm
          · exact ih _ _ _ _ _ _ _ _ h

theorem perform_interpoation_error_form (ipl : Interpolator) (q : Point)
    (e : InterpolatorError) (h : perform_interpoation ipl q = .error e) :
    e = .tooManyNeighbors ipl.degree_limitation ∨ e = .panicked := by
  unfold perform_interpoation at h
  split at h
  · simp at h
  · exact envelope_walk_error_form ipl _ _ _ _ _ _ _ _ _ _ _ h

/-! ### Stabilization lemmas: each loop runs at most `degree_limitation`
iterations, so any iteration budget of at least `degree_limitation` produces
the same outcome as the source's budget of exactly `degree_limitation`. -/

theorem fan_loop_stable (ipl : Interpolator) (e1 : Nat) :
    ∀ f1 f2 dcount ce cs1 pre,
      ipl.degree_limitation ≤ dcount + f1 → ipl.degree_limitation ≤ dcount + f2 →
      dcount < ipl.degree_limitation →
      fan_loop ipl e1 f1 dcount ce cs1 pre = fan_loop ipl e1 f2 dcount ce cs1 pre := by
  intro f1
  induction f1 with
  | zero =>
    intro f2 dcount ce cs1 pre h1 h2 h3
    omega
  | succ n ih =>
    intro f2 dcount ce cs1 pre h1 h2 h3
    match f2 with
    | 0 => omega
    | m + 1 =>
      simp only [fan_loop]
      split
      · rfl
      · split
        · rfl
        · rename_i hdet
          simp only [detect_too_large_degree, decide_eq_true_eq] at hdet
          exact ih m (dcount + 1) _ _ _ (by omega) (by omega) (by omega)

theorem envelope_advance_stable (ipl : Interpolator) (pt : Point) :
    ∀ f1 f2 dcount edge2,
      ipl.degree_limitation ≤ dcount + f1 → ipl.degree_limitation ≤ dcount + f2 →
      dcount < ipl.degree_limitation →
      envelope_advance ipl pt f1 dcount edge2 = envelope_advance ipl pt f2 dcount edge2 := by
  intro f1
  induction f1 with
  | zero =>
    intro f2 dcount edge2 h1 h2 h3
    omega
  | succ n ih =>
    intro f2 dcount edge2 h1 h2 h3
    match f2 with
    | 0 => omega
    | m + 1 =>
      simp only [envelope_advance]
      split
      · rfl
      · split
        · split
          · rfl
          · rename_i hdet
            simp only [detect_too_large_degree, decide_eq_true_eq] at hdet
            exact ih m (dcount + 1) _ (by omega) (by omega) (by omega)
        · rfl

theorem envelope_walk_stable (ipl : Interpolator) (pt : Point) (start : Nat) :
    ∀ f1 f2 dcount e0 e1 e2 ef tmp trace,
      ipl.degree_limitation ≤ dcount + f1 → ipl.degree_limitation ≤ dcount + f2 →
      dcount < ipl.degree_limitation →
      envelope_walk ipl pt start f1 dcount e0 e1 e2 ef tmp trace =
        envelope_walk ipl pt start f2 dcount e0 e1 e2 ef tmp trace := by
  intro f1
  induction f1 with
  | zero =>
    intro f2 dcount e0 e1 e2 ef tmp trace h1 h2 h3
    omega
  | succ n ih =>
    intro f2 dcount e0 e1 e2 ef tmp trace h1 h2 h3
    match f2 with
    | 0 => omega
    | m + 1 =>
      simp only [envelope_walk]
      split
      · rfl
      · split
        · rfl
        · split
          · rfl
          · split
            · rfl
            · rename_i hdet
              simp only [detect_too_large_degree, decide_eq_true_eq] at hdet
              exact ih m (dcount + 1) _ _ _ _ _ _ (by omega) (by omega) (by omega)

/-! ### Trace structure: shapes of successful `apply` steps and walks. -/

theorem apply_step_ok_shape (ipl : Interpolator) (pt : Point) (e0 e1 e2 : Nat) (tmp : ℚ)
    (trace : List (Nat × ℚ × ℚ)) (tmp' : ℚ) (trace' : List (Nat × ℚ × ℚ))
    (h : apply_step ipl pt e0 e1 e2 tmp trace = .ok (tmp', trace')) :
    ∃ w, calculate_weight_area ipl pt e0 e1 e2 = .ok w ∧ tmp' = tmp + w ∧
      trace' = trace ++ [(ipl.triangles.getD e1 0, w, tmp + w)] := by
  unfold apply_step at h
  split at h
  · simp at h
  · rename_i w hw
    simp only [Except.ok.injEq, Prod.mk.injEq] at h
    exact ⟨w, hw, h.1.symm, h.2.symm⟩

theorem envelope_walk_ok_ne_nil (ipl : Interpolator) (pt : Point) (start : Nat) :
    ∀ fuel dcount e0 e1 e2 ef tmp trace tr,
      dcount + fuel = ipl.degree_limitation → dcount < ipl.degree_limitation →
      envelope_walk ipl pt start fuel dcount e0 e1 e2 ef tmp trace = .ok tr →
      tr ≠ [] := by
  intro fuel
  induction fuel with
  | zero =>
    intro dcount e0 e1 e2 ef tmp trace tr h1 h2 h
    omega
  | succ n ih =>
    intro dcount e0 e1 e2 ef tmp trace tr h1 h2 h
    simp only [envelope_walk] at h
    split at h
    · simp at h
    · split at h
      · simp at h
      · split at h
        · split at h
          · simp at h
          · split at h
            · simp at h
            · split at h
              · simp at h
              · rename_i tmp2 trace2 happ2 x trace3 happ3
                simp only [Except.ok.injEq] at h
                subst h
                obtain ⟨w, _, _, htr⟩ := apply_step_ok_shape ipl pt _ _ _ _ _ _ _ happ3
                subst htr
                simp
        · split at h
          · simp at h
          · rename_i hdet
            simp only [detect_too_large_degree, decide_eq_true_eq] at hdet
            exact ih (dcount + 1) _ _ _ _ _ _ _ (by omega) (by omega) h

/-- The running-sum chain: `rs_chain t0 l t` states that the third component of
each trace entry is the previous running sum plus the entry's weight, starting
from `t0` and ending at `t`. -/
def rs_chain : ℚ → List (Nat × ℚ × ℚ) → ℚ → Prop
  | t0, [], t => t = t0
  | t0, e :: rest, t => e.2.2 = t0 + e.2.1 ∧ rs_chain e.2.2 rest t

theorem rs_chain_append (l1 : List (Nat × ℚ × ℚ)) :
    ∀ l2 t0 t1 t2, rs_chain t0 l1 t1 → rs_chain t1 l2 t2 → rs_chain t0 (l1 ++ l2) t2 := by
  induction l1 with
  | nil =>
    intro l2 t0 t1 t2 h1 h2
    simp only [rs_chain] at h1
    subst h1
    simpa using h2
  | cons e rest ih =>
    intro l2 t0 t1 t2 h1 h2
    obtain ⟨he, hrest⟩ := h1
    exact ⟨he, ih l2 _ _ _ hrest h2⟩

theorem apply_step_rs (ipl : Interpolator) (pt : Point) (e0 e1 e2 : Nat) (tmp : ℚ)
    (trace : List (Nat × ℚ × ℚ)) (tmp' : ℚ) (trace' : List (Nat × ℚ × ℚ)) (t0 : ℚ)
    (h : apply_step ipl pt e0 e1 e2 tmp trace = .ok (tmp', trace'))
    (hrs : rs_chain t0 trace tmp) : rs_chain t0 trace' tmp' := by
  obtain ⟨w, _, htmp, htr⟩ := apply_step_ok_shape ipl pt _ _ _ _ _ _ _ h
  subst htmp
  subst htr
  exact rs_chain_append trace _ _ _ _ hrs ⟨rfl, rfl⟩

theorem envelope_walk_rs (ipl : Interpolator) (pt : Point) (start : Nat) :
    ∀ fuel dcount e0 e1 e2 ef tmp trace tr,
      envelope_walk ipl pt start fuel dcount e0 e1 e2 ef tmp trace = .ok tr →
      rs_chain 0 trace tmp → ∃ t, rs_chain 0 tr t := by
  intro fuel
  induction fuel with
  | zero =>
    intro dcount e0 e1 e2 ef tmp trace tr h hrs
    simp only [envelope_walk, Except.ok.injEq] at h
    subst h
    exact ⟨tmp, hrs⟩
  | succ n ih =>
    intro dcount e0 e1 e2 ef tmp trace tr h hrs
    simp only [envelope_walk] at h
    split at h
    · simp at h
    · rename_i e2' hadv
      split at h
      · simp at h
      · rename_i tmp' trace' happ
        have hrs' : rs_chain 0 trace' tmp' := by
          split at happ
          · exact apply_step_rs ipl pt _ _ _ _ _ _ _ _ happ hrs
          · simp only [Except.ok.injEq, Prod.mk.injEq] at happ
            obtain ⟨h1, h2⟩ := happ
            subst h1
            subst h2
            exact hrs
        split at h
        · split at h
          · simp at h
          · split at h
            · simp at h
            · rename_i tmp2 trace2 happ2
              split at h
              · simp at h
              · rename_i x trace3 happ3
                simp only [Except.ok.injEq] at h
                subst h
                exact ⟨x, apply_step_rs ipl pt _ _ _ _ _ _ _ _ happ3
                  (apply_step_rs ipl pt _ _ _ _ _ _ _ _ happ2 hrs')⟩
        · split at h
          · simp at h
          · exact ih _ _ _ _ _ _ _ _ h hrs'

theorem perform_interpoation_rs (ipl : Interpolator) (q : Point)
    (tr : List (Nat × ℚ × ℚ)) (h : perform_interpoation ipl q = .ok tr) :
    ∃ t, rs_chain 0 tr t := by
  unfold perform_interpoation at h
  split at h
  · simp only [Except.ok.injEq] at h
    subst h
    exact ⟨0, rfl⟩
  · exact envelope_walk_rs ipl _ _ _ _ _ _ _ _ _ _ _ h rfl

theorem rs_chain_end_eq (l : List (Nat × ℚ × ℚ)) :
    ∀ t0 t, rs_chain t0 l t → t = t0 + (l.map (fun e => e.2.1)).sum := by
  induction l with
  | nil =>
    intro t0 t h
    simpa [rs_chain] using h
  | cons e rest ih =>
    intro t0 t h
    obtain ⟨he, hrest⟩ := h
    have := ih _ _ hrest
    rw [this, he]
    simp
    ring

theorem rs_chain_last_mem (l : List (Nat × ℚ × ℚ)) :
    ∀ t0 t, rs_chain t0 l t → l ≠ [] → ∃ e ∈ l, e.2.2 = t := by
  induction l with
  | nil =>
    intro t0 t _ hne
    exact absurd rfl hne
  | cons e rest ih =>
    intro t0 t h _
    obtain ⟨he, hrest⟩ := h
    cases rest with
    | nil =>
      refine ⟨e, by simp, ?_⟩
      simpa [rs_chain] using hrest.symm
    | cons e2 rest2 =>
      obtain ⟨e', hmem, hval⟩ := ih _ _ hrest (by simp)
      exact ⟨e', by simp [hmem], hval⟩

/-! ### Algebra of the two accumulators: the online `lerp` fold and the
explicit weight list agree with the closed-form weighted sum. -/

/-- The weighted sum of values over a trace with unnormalized weights. -/
def weighted_sum (values : List ℚ) (l : List (Nat × ℚ × ℚ)) : ℚ :=
  (l.map (fun e => values.getD e.1 0 * e.2.1)).sum

theorem fold_lerp_eq (values : List ℚ) (l : List (Nat × ℚ × ℚ)) :
    ∀ t0 t N, rs_chain t0 l t → (∀ e ∈ l, e.2.2 ≠ 0) → t0 ≠ 0 →
      l.foldl (interpolate_fold values) (some (N / t0)) =
        some ((N + weighted_sum values l) / t) := by
  induction l with
  | nil =>
    intro t0 t N hrs _ _
    simp only [rs_chain] at hrs
    subst hrs
    simp [weighted_sum]
  | cons e rest ih =>
    intro t0 t N hrs htmp ht0
    obtain ⟨he, hrest⟩ := hrs
    have hs : e.2.2 ≠ 0 := htmp e (by simp)
    have hstep : interpolate_fold values (some (N / t0)) e =
        some ((N + values.getD e.1 0 * e.2.1) / e.2.2) := by
      simp only [interpolate_fold, lerp, Option.some.injEq]
      rw [he]
      rw [he] at hs
      field_simp
      try ring
    rw [List.foldl_cons, hstep,
      ih _ _ _ hrest (fun e' he' => htmp e' (by simp [he'])) hs]
    simp only [weighted_sum, List.map_cons, List.sum_cons, Option.some.injEq]
    try ring

theorem fold_lerp_none (values : List ℚ) (l : List (Nat × ℚ × ℚ)) (t : ℚ)
    (hrs : rs_chain 0 l t) (htmp : ∀ e ∈ l, e.2.2 ≠ 0) (hne : l ≠ []) :
    l.foldl (interpolate_fold values) none = some (weighted_sum values l / t) := by
  cases l with
  | nil => exact absurd rfl hne
  | cons e rest =>
    obtain ⟨he, hrest⟩ := hrs
    have hs : e.2.2 ≠ 0 := htmp e (by simp)
    have hw : e.2.1 ≠ 0 := by
      rw [he] at hs
      simpa using hs
    have hfirst : interpolate_fold values none e = some (values.getD e.1 0) := rfl
    have hval : values.getD e.1 0 = (values.getD e.1 0 * e.2.1) / e.2.2 := by
      rw [he]
      rw [zero_add]
      rw [mul_div_assoc, div_self hw, mul_one]
    rw [List.foldl_cons, hfirst, hval,
      fold_lerp_eq values rest _ _ _ hrest (fun e' he' => htmp e' (by simp [he'])) hs]
    simp only [weighted_sum, List.map_cons, List.sum_cons, Option.some.injEq]
    try ring

theorem interpolate_fold_isSome (values : List ℚ) (l : List (Nat × ℚ × ℚ)) :
    ∀ v : ℚ, (l.foldl (interpolate_fold values) (some v)).isSome := by
  induction l with
  | nil => intro v; rfl
  | cons e rest ih =>
    intro v
    rw [List.foldl_cons]
    cases e.1 <;> exact ih _

theorem foldl_add_sum (l : List (Nat × ℚ × ℚ)) :
    ∀ a : ℚ, l.foldl (fun s iwt => s + iwt.2.1) a = a + (l.map (fun e => e.2.1)).sum := by
  induction l with
  | nil => intro a; simp
  | cons e rest ih =>
    intro a
    rw [List.foldl_cons, ih]
    simp
    ring

theorem sum_map_norm (l : List (Nat × ℚ × ℚ)) (c : ℚ) :
    ((l.map (fun e => (e.1, e.2.1 / c))).map (fun iw => iw.2)).sum =
      (l.map (fun e => e.2.1)).sum / c := by
  induction l with
  | nil => simp
  | cons e rest ih =>
    simp only [List.map_cons, List.sum_cons, ih, add_div]

theorem sum_map_norm_weighted (values : List ℚ) (l : List (Nat × ℚ × ℚ)) (c : ℚ) :
    ((l.map (fun e => (e.1, e.2.1 / c))).map (fun iw => values.getD iw.1 0 * iw.2)).sum =
      weighted_sum values l / c := by
  induction l with
  | nil => simp [weighted_sum]
  | cons e rest ih =>
    simp only [weighted_sum, List.map_cons, List.sum_cons] at *
    rw [ih, add_div, mul_div_assoc]

/-! ### Inversion lemmas for the two public queries. -/

theorem interpolate_eq_of_perform (ipl : Interpolator) (values : List ℚ) (q : Point)
    (tr : List (Nat × ℚ × ℚ)) (hlen : ipl.points.length = values.length)
    (hp : perform_interpoation ipl q = .ok tr) :
    interpolate ipl values q = .ok (tr.foldl (interpolate_fold values) none) := by
  unfold interpolate
  rw [if_neg (by omega), hp]

theorem query_weights_ok_some_inv (ipl : Interpolator) (q : Point)
    (l : List (Nat × ℚ)) (h : query_weights ipl q = .ok (some l)) :
    ∃ tr, perform_interpoation ipl q = .ok tr ∧
      (tr.map (fun e => e.2.1)).sum ≠ 0 ∧
      l = tr.map (fun e => (e.1, e.2.1 / (tr.map (fun e' => e'.2.1)).sum)) := by
  simp only [query_weights] at h
  split at h
  · simp at h
  · rename_i tr hp
    rw [foldl_add_sum tr 0, zero_add] at h
    split at h
    · simp at h
    · rename_i hsum
      simp only [Except.ok.injEq, Option.some.injEq] at h
      subst h
      exact ⟨tr, hp, hsum, by rw [List.map_map]; rfl⟩

theorem query_weights_ok_none_inv (ipl : Interpolator) (q : Point)
    (h : query_weights ipl q = .ok none) :
    ∃ tr, perform_interpoation ipl q = .ok tr ∧ (tr.map (fun e => e.2.1)).sum = 0 := by
  simp only [query_weights] at h
  split at h
  · simp at h
  · rename_i tr hp
    rw [foldl_add_sum tr 0, zero_add] at h
    split at h
    · exact ⟨tr, hp, by assumption⟩
    · simp at h

theorem query_weights_of_zero_sum (ipl : Interpolator) (q : Point)
    (tr : List (Nat × ℚ × ℚ)) (hp : perform_interpoation ipl q = .ok tr)
    (hsum : (tr.map (fun e => e.2.1)).sum = 0) :
    query_weights ipl q = .ok none := by
  simp only [query_weights]
  rw [hp]
  simp only [foldl_add_sum tr 0, zero_add]
  rw [if_pos hsum]

/-! ### Concrete evaluations on the unit-square scenario. All rational values
below are the exact results of the embedded computation. -/

/-- The perturbed point the locate step returns for the ambiguous query
`(1/2, 1/2)` on the unit square: the original query moved by the first
perturbation offset. -/
def sq_probe_point : Point :=
  ⟨100000000000283 / 200000000000000, 500000000001339 / 1000000000000000⟩

/-- The callback trace of the envelope walk on the unit square at query
`(1/2, 1/2)` (which the locate step perturbs to `sq_probe_point`). -/
def sq_trace : List (Nat × ℚ × ℚ) :=
  [(1, -(6944444444444444444444339023722222222222222222622309254481 /
        27777777777773555555555345035000000000000000000000000000000),
       -(6944444444444444444444339023722222222222222222622309254481 /
        27777777777773555555555345035000000000000000000000000000000)),
   (2, -(20833333333333333333333017071166666666666666667866927763443 /
        83333333332874333333333964895000000000000000000000000000000),
       -(6944444444444444444444339023722222222222222222622309254481 /
        13888888888849583333333233726611111392998135000000000000000)),
   (3, -(62499999999999999999999051213500000000000000003600783290329 /
        250000000000037999999998105315000000000000000000000000000000),
       -(1041666666668579166666648222051388859856021988988849755944537961746461693569998034733303 /
        1388888888888888888888867804744444444444444444524218472205000000000000000000000000000000)),
   (0, -(20833333333333333333333017071166666666666666667866927763443 /
        83333333333792333333333964895000000000000000000000000000000),
       -(6944444444444444444444339023722222222222222222622309254481 /
        6944444444444444444444339023722222222222222222621092361025))]

/-- The normalized weight list `query_weights` returns on the unit square at
`(1/2, 1/2)`: four weights, one per corner, each within `1e-6` of `1/4`. -/
def sq_weights : List (Nat × ℚ) :=
  [(1, 50000000000007599999999621063 / 200000000000000000000000000000),
   (2, 50000000000275400000000378937 / 200000000000000000000000000000),
   (3, 49999999999992399999999621063 / 200000000000000000000000000000),
   (0, 49999999999724600000000378937 / 200000000000000000000000000000)]

/-- The value `interpolate` returns on the unit square at `(1/2, 1/2)` with
values `1, 0, 1, 0`: within `1e-6` of `1/2`. -/
def sq_value : ℚ :=
  50000000000000000000000378937 / 100000000000000000000000000000

/-- The perturbed point the locate step returns for the query `(0, 0)`,
which coincides with site 0 of the unit square. -/
def sq_probe_point0 : Point :=
  ⟨283 / 200000000000000, 1339 / 1000000000000000⟩

/-- The normalized weight list `query_weights` returns on the unit square at
the site `(0, 0)`: the envelope walk runs (four entries), and site 0 gets
weight close to, but not exactly, `1`. -/
def sq_weights_at_site0 : List (Nat × ℚ) :=
  [(1, 282999999999621063 / 200000000000000000000000000000),
   (2, 378937 / 200000000000000000000000000000),
   (3, 267799999999621063 / 200000000000000000000000000000),
   (0, 199999999999449200000000378937 / 200000000000000000000000000000)]

/-- The value `interpolate` returns on the unit square at the site `(0, 0)`
with values `1, 0, 1, 0`: close to, but not exactly, the site's value `1`. -/
def sq_value_at_site0 : ℚ :=
  99999999999724600000000378937 / 100000000000000000000000000000

theorem sq_ambiguous_at_center : 2 ≤ (locate_candidates sq ⟨1/2, 1/2⟩).length := by
  with_unfolding_all decide

theorem sq_fit_eval : fit_in_triangle sq ⟨1/2, 1/2⟩ = some (0, sq_probe_point) := by
  with_unfolding_all rfl

theorem sq_perform_eval : perform_interpoation sq ⟨1/2, 1/2⟩ = .ok sq_trace := by
  with_unfolding_all rfl

theorem sq_query_eval : query_weights sq ⟨1/2, 1/2⟩ = .ok (some sq_weights) := by
  with_unfolding_all rfl

theorem sq_interpolate_eval :
    interpolate sq sq_values ⟨1/2, 1/2⟩ = .ok (some sq_value) := by
  with_unfolding_all rfl

theorem sq_ambiguous_at_site0 : 2 ≤ (locate_candidates sq ⟨0, 0⟩).length := by
  with_unfolding_all decide

theorem sq_fit0_eval : fit_in_triangle sq ⟨0, 0⟩ = some (0, sq_probe_point0) := by
  with_unfolding_all rfl

theorem sq_query0_eval : query_weights sq ⟨0, 0⟩ = .ok (some sq_weights_at_site0) := by
  with_unfolding_all rfl

theorem sq_interpolate0_eval :
    interpolate sq sq_values ⟨0, 0⟩ = .ok (some sq_value_at_site0) := by
  with_unfolding_all rfl

theorem sq_outside_eval : locate_candidates sq ⟨10, 10⟩ = [] := by
  with_unfolding_all rfl

/-- Helper: a successful probe (`check_around = false`) returns its own input
point unchanged. -/
theorem fit_in_triangle_probe_point (ipl : Interpolator) (pt : Point) (s : Nat) (p : Point)
    (h : fit_in_triangle_probe ipl pt = some (s, p)) : p = pt := by
  simp only [fit_in_triangle_probe] at h
  split at h
  · simp at h
  · rw [Option.map_eq_some'] at h
    obtain ⟨t, _, ht⟩ := h
    simp only [Prod.mk.injEq] at ht
    exact ht.2.symm

/-! ## Claim theorems -/

/-- C1, counterexample: on the unit square, the query `(1/2, 1/2)` lies on the
shared diagonal, so the exact locate is ambiguous (two candidates); the first
perturbation offset resolves it, but `fit_in_triangle` returns the perturbed
point (different from the original query) and `perform_interpoation` runs the
weight computation at that perturbed point — contradicting the claim that the
weight/area computation uses the original query point. -/
theorem C1_counterexample :
    2 ≤ (locate_candidates sq ⟨1/2, 1/2⟩).length ∧
    fit_in_triangle sq ⟨1/2, 1/2⟩ = some (0, sq_probe_point) ∧
    sq_probe_point ≠ ⟨1/2, 1/2⟩ ∧
    perform_interpoation sq ⟨1/2, 1/2⟩ =
      envelope_walk sq sq_probe_point 0 sq.degree_limitation 0
        sq.harfedges.length sq.harfedges.length 0 none 0 [] :=
  ⟨sq_ambiguous_at_center, sq_fit_eval, by with_unfolding_all decide,
   by with_unfolding_all rfl⟩

/-- C1 (amended): when the exact point-in-triangle test is ambiguous (two or
more candidates) and a perturbation probe resolves the locate, the point
returned by `fit_in_triangle` is the original query moved by one of the four
fixed offsets — hence not the original query point — and the subsequent
weight/area computation (`envelope_walk`, which calls
`calculate_weight_area`) runs at that perturbed point, not at the original
query point. -/
theorem C1_theorem (ipl : Interpolator) (q : Point) (s : Nat) (p : Point)
    (hfit : fit_in_triangle ipl q = some (s, p))
    (hamb : 2 ≤ (locate_candidates ipl q).length) :
    (∃ a ∈ check_angles, p = ⟨q.x + a.x, q.y + a.y⟩ ∧ p ≠ q) ∧
    perform_interpoation ipl q =
      envelope_walk ipl p s ipl.degree_limitation 0
        ipl.harfedges.length ipl.harfedges.length s none 0 [] := by
  constructor
  · have hfit' := hfit
    simp only [fit_in_triangle] at hfit'
    rw [if_pos hamb] at hfit'
    obtain ⟨a, ha, hpr⟩ := List.exists_of_findSome?_eq_some hfit'
    have hpa := fit_in_triangle_probe_point ipl _ _ _ hpr
    refine ⟨a, ha, hpa, ?_⟩
    have hax : a.x ≠ 0 := by
      simp only [check_angles, List.mem_cons, List.not_mem_nil, or_false] at ha
      rcases ha with h | h | h | h <;> subst h <;> with_unfolding_all decide
    intro hq
    rw [hpa] at hq
    have : q.x + a.x = q.x := congrArg Point.x hq
    exact hax (by linarith)
  · simp only [perform_interpoation, hfit]

/-- C1, witness for the amended theorem at the unit-square instance. -/
theorem C1_witness :
    (fit_in_triangle sq ⟨1/2, 1/2⟩ = some (0, sq_probe_point) ∧
     2 ≤ (locate_candidates sq ⟨1/2, 1/2⟩).length) ∧
    ((∃ a ∈ check_angles,
        sq_probe_point = ⟨(⟨1/2, 1/2⟩ : Point).x + a.x, (⟨1/2, 1/2⟩ : Point).y + a.y⟩ ∧
        sq_probe_point ≠ ⟨1/2, 1/2⟩) ∧
     perform_interpoation sq ⟨1/2, 1/2⟩ =
       envelope_walk sq sq_probe_point 0 sq.degree_limitation 0
         sq.harfedges.length sq.harfedges.length 0 none 0 []) :=
  ⟨⟨sq_fit_eval, sq_ambiguous_at_center⟩,
   C1_theorem sq ⟨1/2, 1/2⟩ 0 sq_probe_point sq_fit_eval sq_ambiguous_at_center⟩

/-- C2: every call terminates with every loop bounded by the configured
degree limit: (i) any `TooManyNeighbors` error returned by `interpolate` or
`query_weights` carries exactly the configured `degree_limitation`; (ii) each
of the three loops (the fan loop of the per-neighbor area computation, the
inner advance loop and the outer loop of the envelope walk) is insensitive to
any iteration budget of at least `degree_limitation`: the budget of exactly
`degree_limitation` — which the source uses, making every loop finite by
construction — already produces the final outcome, the guard aborting the
query with `TooManyNeighbors(degree_limitation)` rather than iterating
further. -/
theorem C2_theorem (ipl : Interpolator) (values : List ℚ) (q : Point)
    (hl : 1 ≤ ipl.degree_limitation) (f : Nat) (hf : ipl.degree_limitation ≤ f) :
    (∀ k, interpolate ipl values q = .error (.tooManyNeighbors k) →
       k = ipl.degree_limitation) ∧
    (∀ k, query_weights ipl q = .error (.tooManyNeighbors k) →
       k = ipl.degree_limitation) ∧
    (∀ e1 ce cs1 pre, fan_loop ipl e1 f 0 ce cs1 pre =
       fan_loop ipl e1 ipl.degree_limitation 0 ce cs1 pre) ∧
    (∀ pt e2, envelope_advance ipl pt f 0 e2 =
       envelope_advance ipl pt ipl.degree_limitation 0 e2) ∧
    (∀ pt start e0 e1 e2 ef tmp tr,
       envelope_walk ipl pt start f 0 e0 e1 e2 ef tmp tr =
         envelope_walk ipl pt start ipl.degree_limitation 0 e0 e1 e2 ef tmp tr) := by
  refine ⟨?_, ?_, ?_, ?_, ?_⟩
  · intro k h
    unfold interpolate at h
    split at h
    · simp at h
    · split at h
      · rename_i e herr
        simp only [Except.error.injEq] at h
        subst h
        rcases perform_interpoation_error_form ipl q _ herr with h' | h'
        · exact (InterpolatorError.tooManyNeighbors.injEq _ _).mp h'
        · simp at h'
      · simp at h
  · intro k h
    simp only [query_weights] at h
    split at h
    · rename_i e herr
      simp only [Except.error.injEq] at h
      subst h
      rcases perform_interpoation_error_form ipl q _ herr with h' | h'
      · exact (InterpolatorError.tooManyNeighbors.injEq _ _).mp h'
      · simp at h'
    · split at h <;> simp at h
  · intro e1 ce cs1 pre
    exact fan_loop_stable ipl e1 f ipl.degree_limitation 0 ce cs1 pre
      (by omega) (by omega) (by omega)
  · intro pt e2
    exact envelope_advance_stable ipl pt f ipl.degree_limitation 0 e2
      (by omega) (by omega) (by omega)
  · intro pt start e0 e1 e2 ef tmp tr
    exact envelope_walk_stable ipl pt start f ipl.degree_limitation 0 e0 e1 e2 ef tmp tr
      (by omega) (by omega) (by omega)

/-- C2, witness at the unit-square instance with iteration budget 31. -/
theorem C2_witness :
    (1 ≤ sq.degree_limitation ∧ sq.degree_limitation ≤ 31) ∧
    ((∀ k, interpolate sq sq_values ⟨1/2, 1/2⟩ = .error (.tooManyNeighbors k) →
        k = sq.degree_limitation) ∧
     (∀ k, query_weights sq ⟨1/2, 1/2⟩ = .error (.tooManyNeighbors k) →
        k = sq.degree_limitation) ∧
     (∀ e1 ce cs1 pre, fan_loop sq e1 31 0 ce cs1 pre =
        fan_loop sq e1 sq.degree_limitation 0 ce cs1 pre) ∧
     (∀ pt e2, envelope_advance sq pt 31 0 e2 =
        envelope_advance sq pt sq.degree_limitation 0 e2) ∧
     (∀ pt start e0 e1 e2 ef tmp tr,
        envelope_walk sq pt start 31 0 e0 e1 e2 ef tmp tr =
          envelope_walk sq pt start sq.degree_limitation 0 e0 e1 e2 ef tmp tr)) :=
  ⟨⟨by with_unfolding_all decide, by with_unfolding_all decide⟩,
   C2_theorem sq sq_values ⟨1/2, 1/2⟩ (by with_unfolding_all decide) 31
     (by with_unfolding_all decide)⟩

/-- C3: for a values list of matching length, whenever every running weight
sum recorded during the walk is nonzero (the non-degeneracy invariant of
spec §3), `query_weights` returning `Some l` forces `interpolate` to return
`Some v` with `v` equal (here: exactly, so in particular within `1e-6`) to
the sum of `values[i] * w_i` over `l`; and `query_weights` returning `None`
forces `interpolate` to return `None`. -/
theorem C3_theorem (ipl : Interpolator) (values : List ℚ) (q : Point)
    (tr : List (Nat × ℚ × ℚ))
    (hlen : ipl.points.length = values.length)
    (hperf : perform_interpoation ipl q = .ok tr)
    (htmp : ∀ e ∈ tr, e.2.2 ≠ 0) :
    (∀ l, query_weights ipl q = .ok (some l) →
       ∃ v, interpolate ipl values q = .ok (some v) ∧
         |v - (l.map (fun iw => values.getD iw.1 0 * iw.2)).sum| ≤ 1 / 1000000) ∧
    (query_weights ipl q = .ok none → interpolate ipl values q = .ok none) := by
  constructor
  · intro l hql
    obtain ⟨tr', hp', hS, hl⟩ := query_weights_ok_some_inv ipl q l hql
    rw [hperf] at hp'
    simp only [Except.ok.injEq] at hp'
    subst hp'
    have hne : tr ≠ [] := by
      intro h0
      rw [h0] at hS
      simp at hS
    obtain ⟨t, hrs⟩ := perform_interpoation_rs ipl q tr hperf
    have ht : t = (tr.map (fun e => e.2.1)).sum := by
      have := rs_chain_end_eq tr 0 t hrs
      simpa using this
    refine ⟨weighted_sum values tr / t, ?_, ?_⟩
    · rw [interpolate_eq_of_perform ipl values q tr hlen hperf,
        fold_lerp_none values tr t hrs htmp hne]
    · rw [hl, sum_map_norm_weighted values tr _, ← ht, sub_self, abs_zero]
      norm_num
  · intro hqn
    obtain ⟨tr', hp', hS0⟩ := query_weights_ok_none_inv ipl q hqn
    rw [hperf] at hp'
    simp only [Except.ok.injEq] at hp'
    subst hp'
    rw [interpolate_eq_of_perform ipl values q tr hlen hperf]
    cases htr : tr with
    | nil => rfl
    | cons e rest =>
      exfalso
      obtain ⟨t, hrs⟩ := perform_interpoation_rs ipl q tr hperf
      have ht : t = (tr.map (fun e => e.2.1)).sum := by
        have := rs_chain_end_eq tr 0 t hrs
        simpa using this
      obtain ⟨e', hmem, hval⟩ := rs_chain_last_mem tr 0 t hrs (by rw [htr]; simp)
      exact htmp e' hmem (by rw [hval, ht, hS0])

/-- C3, witness at the unit-square instance. -/
theorem C3_witness :
    (sq.points.length = sq_values.length ∧
     perform_interpoation sq ⟨1/2, 1/2⟩ = .ok sq_trace ∧
     (∀ e ∈ sq_trace, e.2.2 ≠ 0) ∧
     query_weights sq ⟨1/2, 1/2⟩ = .ok (some sq_weights)) ∧
    (∃ v, interpolate sq sq_values ⟨1/2, 1/2⟩ = .ok (some v) ∧
       |v - (sq_weights.map (fun iw => sq_values.getD iw.1 0 * iw.2)).sum| ≤ 1 / 1000000) :=
  ⟨⟨by with_unfolding_all decide, sq_perform_eval, by with_unfolding_all decide,
    sq_query_eval⟩,
   (C3_theorem sq sq_values ⟨1/2, 1/2⟩ sq_trace (by with_unfolding_all decide)
     sq_perform_eval (by with_unfolding_all decide)).1 sq_weights sq_query_eval⟩

/-- C4: whenever `query_weights` returns `Some l`, the list `l` is exactly the
recorded trace with each unnormalized weight divided by the total sum, that
total is nonzero, and the returned weights sum to exactly 1 (hence to 1 within
`1e-6`); and whenever the total recorded weight is zero, `query_weights`
returns `None` instead of dividing by zero. -/
theorem C4_theorem (ipl : Interpolator) (q : Point) :
    (∀ l, query_weights ipl q = .ok (some l) →
       ∃ tr, perform_interpoation ipl q = .ok tr ∧
         (tr.map (fun e => e.2.1)).sum ≠ 0 ∧
         l = tr.map (fun e => (e.1, e.2.1 / (tr.map (fun e' => e'.2.1)).sum)) ∧
         (l.map (fun iw => iw.2)).sum = 1 ∧
         |(l.map (fun iw => iw.2)).sum - 1| ≤ 1 / 1000000) ∧
    (∀ tr, perform_interpoation ipl q = .ok tr →
       (tr.map (fun e => e.2.1)).sum = 0 → query_weights ipl q = .ok none) := by
  constructor
  · intro l hql
    obtain ⟨tr, hp, hS, hl⟩ := query_weights_ok_some_inv ipl q l hql
    have hsum1 : (l.map (fun iw => iw.2)).sum = 1 := by
      rw [hl, sum_map_norm, div_self hS]
    refine ⟨tr, hp, hS, hl, hsum1, ?_⟩
    rw [hsum1, sub_self, abs_zero]
    norm_num
  · exact fun tr hp hs => query_weights_of_zero_sum ipl q tr hp hs

/-- C4, witness at the unit-square instance. -/
theorem C4_witness :
    query_weights sq ⟨1/2, 1/2⟩ = .ok (some sq_weights) ∧
    (∃ tr, perform_interpoation sq ⟨1/2, 1/2⟩ = .ok tr ∧
       (tr.map (fun e => e.2.1)).sum ≠ 0 ∧
       sq_weights = tr.map (fun e => (e.1, e.2.1 / (tr.map (fun e' => e'.2.1)).sum)) ∧
       (sq_weights.map (fun iw => iw.2)).sum = 1 ∧
       |(sq_weights.map (fun iw => iw.2)).sum - 1| ≤ 1 / 1000000) :=
  ⟨sq_query_eval, (C4_theorem sq ⟨1/2, 1/2⟩).1 sq_weights sq_query_eval⟩

/-- C5, counterexample: on the unit square, the query `(0, 0)` coincides with
site 0, yet the interpolation does not short-circuit: the envelope walk runs
over all four neighbors, the weight reported for site 0 is not exactly `1`,
and `interpolate` does not return the site's value unchanged. -/
theorem C5_counterexample :
    sq.points.getD 0 default = ⟨0, 0⟩ ∧
    query_weights sq ⟨0, 0⟩ = .ok (some sq_weights_at_site0) ∧
    sq_weights_at_site0.length = 4 ∧
    (∀ p ∈ sq_weights_at_site0, p.1 = 0 → p.2 ≠ 1) ∧
    interpolate sq sq_values ⟨0, 0⟩ = .ok (some sq_value_at_site0) ∧
    sq_value_at_site0 ≠ sq_values.getD 0 0 :=
  ⟨by with_unfolding_all rfl, sq_query0_eval, by with_unfolding_all rfl,
   by with_unfolding_all decide, sq_interpolate0_eval, by with_unfolding_all decide⟩

/-- C5 (amended): a query whose coordinates exactly equal a site's coordinates
is not short-circuited — `fit_in_triangle` has no on-vertex fast path, and how
the query is located varies by site. Concretely, on the unit-square scenario:
at site 0 = `(0, 0)` the exact locate is ambiguous, a perturbation probe
resolves it to a perturbed point, the full four-neighbor envelope walk runs,
and the site's weight is `1.0` — and the interpolated value the site's
value — only within tolerance (here within `1e-6`), not exactly; whereas at
site 1 = `(1, 0)` the exact locate finds a single candidate, so no probe runs
and the locate returns the original, unperturbed site point. -/
theorem C5_theorem :
    sq.points.getD 0 default = ⟨0, 0⟩ ∧
    2 ≤ (locate_candidates sq ⟨0, 0⟩).length ∧
    fit_in_triangle sq ⟨0, 0⟩ = some (0, sq_probe_point0) ∧
    sq_probe_point0 ≠ ⟨0, 0⟩ ∧
    query_weights sq ⟨0, 0⟩ = .ok (some sq_weights_at_site0) ∧
    sq_weights_at_site0.length = 4 ∧
    (∀ p ∈ sq_weights_at_site0, p.1 = 0 → |p.2 - 1| ≤ 1 / 1000000) ∧
    interpolate sq sq_values ⟨0, 0⟩ = .ok (some sq_value_at_site0) ∧
    |sq_value_at_site0 - sq_values.getD 0 0| ≤ 1 / 1000000 ∧
    sq.points.getD 1 default = ⟨1, 0⟩ ∧
    (locate_candidates sq ⟨1, 0⟩).length = 1 ∧
    fit_in_triangle sq ⟨1, 0⟩ = some (0, ⟨1, 0⟩) :=
  ⟨by with_unfolding_all rfl, sq_ambiguous_at_site0, sq_fit0_eval,
   by with_unfolding_all decide, sq_query0_eval, by with_unfolding_all rfl,
   by with_unfolding_all decide, sq_interpolate0_eval, by with_unfolding_all decide,
   by with_unfolding_all rfl, by with_unfolding_all rfl, by with_unfolding_all rfl⟩

/-- C6: when the exact locate finds no containing triangle, or finds an
ambiguity that none of the four perturbation probes resolves, both
`interpolate` (with a matching-length values list) and `query_weights`
return `Ok(None)` — the defined empty result, not an error. -/
theorem C6_theorem (ipl : Interpolator) (values : List ℚ) (q : Point)
    (hlen : ipl.points.length = values.length)
    (h : locate_candidates ipl q = [] ∨
      (2 ≤ (locate_candidates ipl q).length ∧
       ∀ a ∈ check_angles, fit_in_triangle_probe ipl ⟨q.x + a.x, q.y + a.y⟩ = none)) :
    interpolate ipl values q = .ok none ∧ query_weights ipl q = .ok none := by
  have hfit : fit_in_triangle ipl q = none := by
    simp only [fit_in_triangle]
    rcases h with h0 | ⟨hamb, hall⟩
    · rw [h0]
      simp
    · rw [if_pos hamb]
      exact List.findSome?_eq_none_iff.mpr hall
  have hp : perform_interpoation ipl q = .ok [] := by
    simp only [perform_interpoation, hfit]
  exact ⟨interpolate_eq_of_perform ipl values q [] hlen hp,
    query_weights_of_zero_sum ipl q [] hp (by simp)⟩

/-- C6, witness: a query far outside the hull of the unit square. -/
theorem C6_witness :
    (sq.points.length = sq_values.length ∧ locate_candidates sq ⟨10, 10⟩ = []) ∧
    (interpolate sq sq_values ⟨10, 10⟩ = .ok none ∧
     query_weights sq ⟨10, 10⟩ = .ok none) :=
  ⟨⟨by with_unfolding_all decide, sq_outside_eval⟩,
   C6_theorem sq sq_values ⟨10, 10⟩ (by with_unfolding_all decide)
     (Or.inl sq_outside_eval)⟩

/-- Modelled from the spec: for an input slice with fewer than 3
non-degenerate points the external Delaunay builder produces no triangles
(spec §6: the builder supplies the triangle-index and half-edge arrays; with
no triangle both are empty). -/
def degenerate_triangulate : List Point → Triangulation := fun _ =>
  { triangles := [], halfedges := [] }

/-- C7, counterexample: `Interpolator::new` applied to a single-point slice
does not fail — it has no failure path at all — and returns a perfectly
usable `Interpolator` (with an empty triangulation) whose queries return
`Ok(None)`, contradicting the claim that construction fails with an error and
produces no `Interpolator`. -/
theorem C7_counterexample :
    Interpolator.new degenerate_triangulate [⟨0, 0⟩] =
      { points := [⟨0, 0⟩], triangles := [], harfedges := [], tree := [],
        degree_limitation := 30 } ∧
    interpolate (Interpolator.new degenerate_triangulate [⟨0, 0⟩]) [5] ⟨0, 0⟩ = .ok none ∧
    query_weights (Interpolator.new degenerate_triangulate [⟨0, 0⟩]) ⟨0, 0⟩ = .ok none :=
  ⟨by with_unfolding_all rfl, by with_unfolding_all rfl, by with_unfolding_all rfl⟩

/-- C7 (amended): `new` never fails and always returns an `Interpolator`;
whenever the external builder yields no triangles (as it does for fewer than
3 non-degenerate points), the constructed interpolator answers every query
with `Ok(None)` — no construction error, no panic. -/
theorem C7_theorem (triangulate : List Point → Triangulation) (points : List Point)
    (values : List ℚ) (q : Point)
    (hdeg : (triangulate points).triangles = [])
    (hlen : points.length = values.length) :
    (Interpolator.new triangulate points).points = points ∧
    interpolate (Interpolator.new triangulate points) values q = .ok none ∧
    query_weights (Interpolator.new triangulate points) q = .ok none := by
  have htree : (Interpolator.new triangulate points).tree = [] := by
    simp [Interpolator.new, hdeg]
  have hpts : (Interpolator.new triangulate points).points = points := by
    simp [Interpolator.new]
  have hcand : locate_candidates (Interpolator.new triangulate points) q = [] := by
    simp [locate_candidates, htree]
  have hfit : fit_in_triangle (Interpolator.new triangulate points) q = none := by
    simp [fit_in_triangle, hcand]
  have hp : perform_interpoation (Interpolator.new triangulate points) q = .ok [] := by
    simp only [perform_interpoation, hfit]
  exact ⟨hpts,
    interpolate_eq_of_perform _ values q [] (by rw [hpts, hlen]) hp,
    query_weights_of_zero_sum _ q [] hp (by simp)⟩

/-- C7, witness for the amended theorem on a one-point input. -/
theorem C7_witness :
    ((degenerate_triangulate [⟨0, 0⟩]).triangles = [] ∧
     ([(⟨0, 0⟩ : Point)].length = [(5 : ℚ)].length)) ∧
    ((Interpolator.new degenerate_triangulate [⟨0, 0⟩]).points = [⟨0, 0⟩] ∧
     interpolate (Interpolator.new degenerate_triangulate [⟨0, 0⟩]) [5] ⟨3, 4⟩ = .ok none ∧
     query_weights (Interpolator.new degenerate_triangulate [⟨0, 0⟩]) ⟨3, 4⟩ = .ok none) :=
  ⟨⟨rfl, rfl⟩,
   C7_theorem degenerate_triangulate [⟨0, 0⟩] [5] ⟨3, 4⟩ rfl rfl⟩

/-- C8: whenever the values list's length differs from the site count,
`interpolate` returns the `DifferentNumberOfPointsAndValues` error, for every
query point alike (the check precedes any point location or traversal, which
the result's independence of the query point reflects). -/
theorem C8_theorem (ipl : Interpolator) (values : List ℚ) (q : Point)
    (h : values.length ≠ ipl.points.length) :
    interpolate ipl values q = .error .differentNumberOfPointsAndValues := by
  unfold interpolate
  rw [if_pos (Ne.symm h)]

/-- C8, witness: an empty values list against the four-site unit square. -/
theorem C8_witness :
    (([] : List ℚ).length ≠ sq.points.length) ∧
    interpolate sq [] ⟨1/2, 1/2⟩ = .error .differentNumberOfPointsAndValues :=
  ⟨by with_unfolding_all decide,
   C8_theorem sq [] ⟨1/2, 1/2⟩ (by with_unfolding_all decide)⟩

/-- C9: on the interpolator built from the four unit-square corners with
values `1, 0, 1, 0`, the query `(1/2, 1/2)` yields an interpolated value
within `1e-6` of `1/2`, and `query_weights` yields four weights — one per
site — each within `1e-6` of `1/4`. -/
theorem C9_theorem :
    interpolate sq sq_values ⟨1/2, 1/2⟩ = .ok (some sq_value) ∧
    |sq_value - 1/2| ≤ 1 / 1000000 ∧
    query_weights sq ⟨1/2, 1/2⟩ = .ok (some sq_weights) ∧
    sq_weights.map Prod.fst = [1, 2, 3, 0] ∧
    (∀ p ∈ sq_weights, |p.2 - 1/4| ≤ 1 / 1000000) :=
  ⟨sq_interpolate_eval, by with_unfolding_all decide, sq_query_eval,
   by with_unfolding_all rfl, by with_unfolding_all decide⟩

/-- C10: with a matching-length values list and a positive degree limit,
`interpolate` returns `Ok(None)` exactly when the locate step fails; whenever
the locate succeeds and `interpolate` returns `Ok`, the result is `Some`
(the first visited neighbor seeds the accumulator); and a nonempty trace with
zero total weight still yields `Some` from `interpolate` even though
`query_weights` maps that zero total to `None`. -/
theorem C10_theorem (ipl : Interpolator) (values : List ℚ) (q : Point)
    (hlen : ipl.points.length = values.length)
    (hl : 1 ≤ ipl.degree_limitation) :
    (∀ r, interpolate ipl values q = .ok r →
       (r = none ↔ fit_in_triangle ipl q = none)) ∧
    (∀ tr, perform_interpoation ipl q = .ok tr → tr ≠ [] →
       (tr.map (fun e => e.2.1)).sum = 0 →
       (∃ v, interpolate ipl values q = .ok (some v)) ∧
       query_weights ipl q = .ok none) := by
  have hsome : ∀ tr, perform_interpoation ipl q = .ok tr → tr ≠ [] →
      ∃ v, interpolate ipl values q = .ok (some v) := by
    intro tr hp hne
    rw [interpolate_eq_of_perform ipl values q tr hlen hp]
    cases tr with
    | nil => exact absurd rfl hne
    | cons e rest =>
      obtain ⟨v, hv⟩ := Option.isSome_iff_exists.mp
        (interpolate_fold_isSome values rest (values.getD e.1 0))
      refine ⟨v, ?_⟩
      rw [List.foldl_cons]
      show Except.ok (List.foldl (interpolate_fold values) (some (values.getD e.1 0)) rest) = _
      rw [hv]
  constructor
  · intro r hr
    rcases hfx : fit_in_triangle ipl q with _ | sp
    · have hp : perform_interpoation ipl q = .ok [] := by
        simp only [perform_interpoation, hfx]
      rw [interpolate_eq_of_perform ipl values q [] hlen hp] at hr
      simp only [List.foldl_nil, Except.ok.injEq] at hr
      exact ⟨fun _ => rfl, fun _ => hr.symm⟩
    · obtain ⟨s, p⟩ := sp
      have hp : perform_interpoation ipl q =
          envelope_walk ipl p s ipl.degree_limitation 0
            ipl.harfedges.length ipl.harfedges.length s none 0 [] := by
        simp only [perform_interpoation, hfx]
      have hex : ∃ tr, perform_interpoation ipl q = .ok tr := by
        unfold interpolate at hr
        rw [if_neg (by omega)] at hr
        cases hw : perform_interpoation ipl q with
        | error e => rw [hw] at hr; simp at hr
        | ok tr => exact ⟨tr, rfl⟩
      obtain ⟨tr, hw⟩ := hex
      have hne : tr ≠ [] :=
        envelope_walk_ok_ne_nil ipl p s ipl.degree_limitation 0
          ipl.harfedges.length ipl.harfedges.length s none 0 [] tr
          (by omega) (by omega) (by rw [← hp]; exact hw)
      obtain ⟨v, hv⟩ := hsome tr hw hne
      rw [hv] at hr
      simp only [Except.ok.injEq] at hr
      constructor
      · intro h0
        rw [← hr] at h0
        simp at h0
      · intro h0
        simp at h0
  · intro tr hp hne hsum
    exact ⟨hsome tr hp hne, query_weights_of_zero_sum ipl q tr hp hsum⟩

/-- C10, witness at the unit-square instance. -/
theorem C10_witness :
    (sq.points.length = sq_values.length ∧ 1 ≤ sq.degree_limitation) ∧
    ((∀ r, interpolate sq sq_values ⟨1/2, 1/2⟩ = .ok r →
        (r = none ↔ fit_in_triangle sq ⟨1/2, 1/2⟩ = none)) ∧
     (∀ tr, perform_interpoation sq ⟨1/2, 1/2⟩ = .ok tr → tr ≠ [] →
        (tr.map (fun e => e.2.1)).sum = 0 →
        (∃ v, interpolate sq sq_values ⟨1/2, 1/2⟩ = .ok (some v)) ∧
        query_weights sq ⟨1/2, 1/2⟩ = .ok none)) :=
  ⟨⟨by with_unfolding_all decide, by with_unfolding_all decide⟩,
   C10_theorem sq sq_values ⟨1/2, 1/2⟩ (by with_unfolding_all decide)
     (by with_unfolding_all decide)⟩

end NNI
